import Mathlib

/-
A verification development for the RBF evaluation engine in rbf/basis.py.

The engine stores a sympy expression in a radius symbol R and a shape
symbol EPS, differentiates it symbolically per spatial axis, optionally
wraps it in a piecewise expression handling a removable singularity,
compiles it per derivative signature into a cached numeric function, and
evaluates the compiled function over broadcast point/center arrays.

The embedding below mirrors that pipeline:
- SymExpr models sympy expressions over R, EPS and the per-axis point and
  center symbols x0..x_ and c0..c_; the smart constructors mkAdd, mkMul
  and mkPow model the automatic evaluation sympy performs when it builds
  Add, Mul and Pow nodes (zero and one collapse, numeric arithmetic,
  integer powers distributing over products, and power-of-power collapse
  for integer outer exponents).
- derivE models the evaluated symbolic derivative sympy returns.
- FVal models IEEE float values as exact rationals extended with
  infinities and NaN; values that are finite but not exactly
  representable (for example sqrt 2) are kept opaque as FVal.irr.
- RBFState, add_to_cache, rbfCall and friends mirror the class RBF:
  construction, validation, the per-signature compiled-function cache,
  numeric invocation, and NaN replacement.
-/

namespace RBFM

/-- Euclidean algorithm with explicit fuel, so that it reduces inside the
kernel by structural recursion; the first argument strictly decreases
each step, so fuel a + 1 always suffices. -/
def gcdF : Nat → Nat → Nat → Nat
  | 0, _, b => b
  | fuel + 1, a, b => if a = 0 then b else gcdF fuel (b % a) a

/-- Greatest common divisor. -/
def natGcd (a b : Nat) : Nat := gcdF (a + 1) a b

/-- Exact rational numbers as normalized fractions: numerator over a
positive denominator with no common factor. Every value built by the
operations below is normalized, so structural equality is numeric
equality; the representation exists so that all arithmetic reduces by
structural recursion inside the kernel. -/
structure QF where
  num : Int
  den : Nat
deriving DecidableEq, Repr

instance (n : Nat) : OfNat QF n := ⟨⟨Int.ofNat n, 1⟩⟩

instance : Neg QF := ⟨fun a => ⟨-a.num, a.den⟩⟩

/-- Build the normalized fraction n over d (d positive). -/
def mkQF (n : Int) (d : Nat) : QF :=
  let g := natGcd n.natAbs d
  ⟨n / (g : Int), d / g⟩

instance : Add QF := ⟨fun a b => mkQF (a.num * (b.den : Int) + b.num * (a.den : Int)) (a.den * b.den)⟩

instance : Mul QF := ⟨fun a b => mkQF (a.num * b.num) (a.den * b.den)⟩

instance : Sub QF := ⟨fun a b => a + (-b)⟩

/-- The reciprocal; zero maps to a junk value, and every use below is
guarded by a zero test. -/
def QF.inv (a : QF) : QF :=
  if 0 < a.num then ⟨(a.den : Int), a.num.toNat⟩
  else if a.num < 0 then ⟨-(a.den : Int), a.num.natAbs⟩
  else ⟨0, 1⟩

/-- Integer power of an integer by structural recursion. -/
def ipow (n : Int) : Nat → Int
  | 0 => 1
  | k + 1 => n * ipow n k

/-- Natural power of a fraction; normalization is preserved because
coprime numbers stay coprime under powers. -/
def QF.powNat (a : QF) (k : Nat) : QF := ⟨ipow a.num k, a.den ^ k⟩

/-- Integer power of a fraction. -/
def QF.powInt (a : QF) (e : Int) : QF :=
  if 0 ≤ e then a.powNat e.toNat else (a.inv).powNat (-e).toNat

instance : HPow QF Int QF := ⟨QF.powInt⟩

instance : LT QF := ⟨fun a b => a.num * (b.den : Int) < b.num * (a.den : Int)⟩

instance : LE QF := ⟨fun a b => a.num * (b.den : Int) ≤ b.num * (a.den : Int)⟩

instance (a b : QF) : Decidable (a < b) :=
  inferInstanceAs (Decidable (a.num * (b.den : Int) < b.num * (a.den : Int)))

instance (a b : QF) : Decidable (a ≤ b) :=
  inferInstanceAs (Decidable (a.num * (b.den : Int) ≤ b.num * (a.den : Int)))

/-- One half, the exponent sympy sqrt carries. -/
def qhalf : QF := ⟨1, 2⟩

/-- The symbolic variables of the pipeline: the radius symbol R, the shape
symbol EPS, and the per-axis point symbols X i and center symbols C i. -/
inductive SymVar
  | R
  | EPS
  | X (i : Nat)
  | C (i : Nat)
deriving DecidableEq, Repr

/-- Symbolic expressions, mirroring the sympy node kinds the engine can
build: rational constants, variables, sums, products, powers with a
rational constant exponent (sympy sqrt is the exponent 1/2), log and exp. -/
inductive SymExpr
  | num (q : QF)
  | var (v : SymVar)
  | add (a b : SymExpr)
  | mul (a b : SymExpr)
  | pow (a : SymExpr) (e : QF)
  | logE (a : SymExpr)
  | expE (a : SymExpr)
deriving DecidableEq, Repr

/-- Model of the automatic evaluation sympy Add performs when built:
numeric addends are added and zero is dropped. -/
def mkAdd (a b : SymExpr) : SymExpr :=
  match a, b with
  | .num p, .num q => .num (p + q)
  | .num p, b => if p = 0 then b else .add (.num p) b
  | a, .num q => if q = 0 then a else .add a (.num q)
  | a, b => .add a b

/-- Model of the automatic evaluation sympy Mul performs when built:
numeric factors are multiplied, zero annihilates, one is dropped. -/
def mkMul (a b : SymExpr) : SymExpr :=
  match a, b with
  | .num p, .num q => .num (p * q)
  | .num p, b => if p = 0 then .num 0 else if p = 1 then b else .mul (.num p) b
  | a, .num q => if q = 0 then .num 0 else if q = 1 then a else .mul a (.num q)
  | a, b => .mul a b

/-- Model of the automatic evaluation sympy Pow performs when built:
exponent zero gives one, exponent one gives the base, integer powers of
rational constants are computed, an integer power of a product
distributes over the factors, and a power of a power with an integer
outer exponent multiplies the exponents. -/
def mkPow (a : SymExpr) (e : QF) : SymExpr :=
  if e = 0 then .num 1
  else if e = 1 then a
  else
    match a with
    | .num q =>
        if e.den = 1 ∧ (q ≠ 0 ∨ 0 ≤ e) then .num (q ^ e.num) else .pow (.num q) e
    | .mul x y =>
        if e.den = 1 then .mul (mkPow x e) (mkPow y e) else .pow (.mul x y) e
    | .pow b p =>
        if e.den = 1 then mkPow b (p * e) else .pow (.pow b p) e
    | a => .pow a e

/-- Substitution of an expression for a variable, rebuilding each node
with the auto-evaluating constructors, as sympy subs does. -/
def subsVar : SymExpr → SymVar → SymExpr → SymExpr
  | .num q, _, _ => .num q
  | .var v, x, r => if v = x then r else .var v
  | .add a b, x, r => mkAdd (subsVar a x r) (subsVar b x r)
  | .mul a b, x, r => mkMul (subsVar a x r) (subsVar b x r)
  | .pow a e, x, r => mkPow (subsVar a x r) e
  | .logE a, x, r => .logE (subsVar a x r)
  | .expE a, x, r => .expE (subsVar a x r)

/-- Whether the variable occurs in the expression (sympy expr.has). -/
def hasVar : SymExpr → SymVar → Bool
  | .num _, _ => false
  | .var v, x => v = x
  | .add a b, x => hasVar a x || hasVar b x
  | .mul a b, x => hasVar a x || hasVar b x
  | .pow a _, x => hasVar a x
  | .logE a, x => hasVar a x
  | .expE a, x => hasVar a x

/-- All variable occurrences, in traversal order. -/
def varsOf : SymExpr → List SymVar
  | .num _ => []
  | .var v => [v]
  | .add a b => varsOf a ++ varsOf b
  | .mul a b => varsOf a ++ varsOf b
  | .pow a _ => varsOf a
  | .logE a => varsOf a
  | .expE a => varsOf a

/-- The free symbols of the expression (sympy expr.free_symbols), as a
duplicate-free list. -/
def freeSymsList (e : SymExpr) : List SymVar := (varsOf e).dedup

/-- The evaluated symbolic derivative, one differentiation with respect to
one variable, with the same automatic simplification sympy applies when
it rebuilds the result. -/
def derivE : SymExpr → SymVar → SymExpr
  | .num _, _ => .num 0
  | .var v, x => if v = x then .num 1 else .num 0
  | .add a b, x => mkAdd (derivE a x) (derivE b x)
  | .mul a b, x => mkAdd (mkMul (derivE a x) b) (mkMul a (derivE b x))
  | .pow a e, x => mkMul (mkMul (.num e) (mkPow a (e - 1))) (derivE a x)
  | .logE a, x => mkMul (derivE a x) (mkPow a (-1))
  | .expE a, x => mkMul (.expE a) (derivE a x)

/-- Numeric values of the evaluator, modelling IEEE float semantics at the
inputs the development uses: exact rationals, the two infinities, NaN,
and an opaque marker irr for a value that is finite and not NaN but not
exactly representable as a rational (for example sqrt 2 or exp 1).
Operations combining irr with infinities keep the opaque marker; no
theorem below evaluates such a combination. -/
inductive FVal
  | fin (q : QF)
  | irr
  | pinf
  | ninf
  | nan
deriving DecidableEq, Repr

/-- IEEE-style addition. -/
def addF : FVal → FVal → FVal
  | .nan, _ => .nan
  | _, .nan => .nan
  | .pinf, .ninf => .nan
  | .ninf, .pinf => .nan
  | .pinf, _ => .pinf
  | _, .pinf => .pinf
  | .ninf, _ => .ninf
  | _, .ninf => .ninf
  | .irr, _ => .irr
  | _, .irr => .irr
  | .fin a, .fin b => .fin (a + b)

/-- IEEE-style multiplication; zero times an infinity is NaN, zero times
a finite opaque value is zero. -/
def mulF : FVal → FVal → FVal
  | .nan, _ => .nan
  | _, .nan => .nan
  | .fin a, .pinf => if 0 < a then .pinf else if a < 0 then .ninf else .nan
  | .pinf, .fin a => if 0 < a then .pinf else if a < 0 then .ninf else .nan
  | .fin a, .ninf => if 0 < a then .ninf else if a < 0 then .pinf else .nan
  | .ninf, .fin a => if 0 < a then .ninf else if a < 0 then .pinf else .nan
  | .pinf, .pinf => .pinf
  | .pinf, .ninf => .ninf
  | .ninf, .pinf => .ninf
  | .ninf, .ninf => .pinf
  | .fin a, .irr => if a = 0 then .fin 0 else .irr
  | .irr, .fin a => if a = 0 then .fin 0 else .irr
  | .irr, _ => .irr
  | _, .irr => .irr
  | .fin a, .fin b => .fin (a * b)

/-- Exact k-th root of a natural number, when one exists. -/
def natRootAux (m k : Nat) : Option Nat :=
  (List.range (m + 2)).find? (fun n => n ^ k == m)

/-- Exact k-th root of a nonnegative rational, when one exists; the
result is normalized because the roots of coprime numbers are coprime. -/
def ratRoot (b : QF) (k : Nat) : Option QF := do
  let n ← natRootAux b.num.toNat k
  let d ← natRootAux b.den k
  pure ⟨(n : Int), d⟩

/-- Float power of a rational base by a rational constant exponent:
integer exponents are exact (with zero to a negative power giving
infinity, as numpy produces), fractional exponents of a negative base
give NaN, and fractional exponents of a positive base are exact when the
root is rational and the opaque irr otherwise. -/
def ratPow (a : QF) (e : QF) : FVal :=
  if e.den = 1 then
    if a = 0 then
      if 0 < e.num then .fin 0 else if e.num = 0 then .fin 1 else .pinf
    else .fin (a ^ e.num)
  else
    if a = 0 then (if 0 < e then .fin 0 else .pinf)
    else if a < 0 then .nan
    else
      match ratRoot (a ^ e.num) e.den with
      | some r => .fin r
      | none => .irr

/-- Float power for all value kinds. -/
def powF : FVal → QF → FVal
  | .fin a, e => ratPow a e
  | .nan, _ => .nan
  | .irr, _ => .irr
  | .pinf, e => if 0 < e then .pinf else if e = 0 then .fin 1 else .fin 0
  | .ninf, e =>
      if e = 0 then .fin 1
      else if e.den = 1 then
        if 0 < e then (if e.num % 2 = 0 then .pinf else .ninf) else .fin 0
      else if 0 < e then .pinf else .fin 0

/-- Float natural logarithm; exact only at one, negative infinity at
zero, NaN for negative arguments. -/
def logF : FVal → FVal
  | .fin q => if q = 1 then .fin 0 else if 0 < q then .irr else if q = 0 then .ninf else .nan
  | .pinf => .pinf
  | .ninf => .nan
  | .irr => .irr
  | .nan => .nan

/-- Float exponential; exact only at zero. -/
def expF : FVal → FVal
  | .fin q => if q = 0 then .fin 1 else .irr
  | .pinf => .pinf
  | .ninf => .fin 0
  | .irr => .irr
  | .nan => .nan

/-- Float comparison used by the piecewise guard; comparisons with NaN
are false, and the opaque irr compares false (no theorem below evaluates
a comparison against irr). -/
def ltF : FVal → FVal → Bool
  | .fin a, .fin b => decide (a < b)
  | .nan, _ => false
  | _, .nan => false
  | .irr, _ => false
  | _, .irr => false
  | .ninf, .ninf => false
  | .ninf, _ => true
  | _, .ninf => false
  | .pinf, _ => false
  | _, .pinf => true

/-- Numeric evaluation of a symbolic expression under an environment. -/
def evalF : SymExpr → (SymVar → FVal) → FVal
  | .num q, _ => .fin q
  | .var v, env => env v
  | .add a b, env => addF (evalF a env) (evalF b env)
  | .mul a b, env => mulF (evalF a env) (evalF b env)
  | .pow a e, env => powF (evalF a env) e
  | .logE a, env => logF (evalF a env)
  | .expE a, env => expF (evalF a env)

/-- The symbolic difference x_i - c_i, as sympy builds it. -/
def diffVarE (i : Nat) : SymExpr :=
  .add (.var (.X i)) (.mul (.num (-1)) (.var (.C i)))

/-- The squared euclidean distance, built like the source: a python sum
starting from zero over the per-axis squared differences. -/
def sumSq (dim : Nat) : SymExpr :=
  (List.range dim).foldl (fun acc i => mkAdd acc (mkPow (diffVarE i) 2)) (.num 0)

/-- The symbolic radial distance r_sym = sqrt of the squared distance
(sympy sqrt is the power one half). -/
def rSym (dim : Nat) : SymExpr := mkPow (sumSq dim) qhalf

/-- Error taxonomy of the python code: every failure in basis.py is a
ValueError with a message, except the index errors raised by tuple
indexing during argument defaulting. -/
inductive ErrTag
  | exprNotFnOfR
  | badPackage
  | notTwoDim
  | dimMismatch
  | epsMismatch
  | diffLenMismatch
  | diffAmbiguous
deriving DecidableEq, Repr

/-- A python exception: ValueError with a tag identifying the message, or
IndexError (tuple index out of range), or KeyError (dict lookup miss;
unreachable in the modelled flows). -/
inductive PyErr
  | valueError (t : ErrTag)
  | indexError
  | keyError
deriving DecidableEq, Repr

/-- Model of sympy expr.diff() called with no variables, which is what
expr.diff(*(xi,)*order) executes when order is negative, since a python
tuple repeated a negative number of times is empty: with no free symbol
the expression is a number and the derivative is zero; with exactly one
free symbol sympy differentiates with respect to it; with more than one
free symbol sympy raises a ValueError asking for the variables. -/
def pyDiffNoArgs (e : SymExpr) : Except PyErr SymExpr :=
  match freeSymsList e with
  | [] => .ok (.num 0)
  | [v] => .ok (derivE e v)
  | _ => .error (.valueError .diffAmbiguous)

/-- One step of the differentiation loop in add_to_cache: order zero is
skipped, a positive order applies the derivative that many times, and a
negative order calls diff with no arguments. -/
def pyDiffOnce (e : SymExpr) (xi : SymVar) (order : ℤ) : Except PyErr SymExpr :=
  if order = 0 then .ok e
  else if 0 < order then .ok ((fun t => derivE t xi)^[order.toNat] e)
  else pyDiffNoArgs e

/-- The differentiation loop over the signature: axis i with order
orders[i], in ascending axis order. -/
def pyApplyDiffs (e : SymExpr) (i : Nat) (orders : List ℤ) : Except PyErr SymExpr :=
  match orders with
  | [] => .ok e
  | o :: rest => do pyApplyDiffs (← pyDiffOnce e (.X i) o) (i + 1) rest

/-- The same loop for signatures with no negative entry, where no failure
is possible. -/
def applyDiffsPure (e : SymExpr) (i : Nat) (orders : List ℤ) : SymExpr :=
  match orders with
  | [] => e
  | o :: rest => applyDiffsPure ((fun t => derivE t (.X i))^[o.toNat] e) (i + 1) rest

/-- A symbolic value that may involve sympy limits. The limit node is
kept uninterpreted: the code calls expr.limit(x, c) and stores whatever
sympy returns, and no claim below depends on that value. -/
inductive LExpr
  | base (e : SymExpr)
  | lim (a : LExpr) (x c : SymVar)
deriving DecidableEq, Repr

/-- The iterated limit of add_to_cache: the limit of the differentiated
expression as each point coordinate approaches the matching center
coordinate, one axis at a time, in ascending axis order. -/
def limitFold (e : SymExpr) (dim : Nat) : LExpr :=
  (List.range dim).foldl (fun acc i => .lim acc (.X i) (.C i)) (.base e)

/-- The symbolic object handed to the compiler: the differentiated
expression itself, or, when a tolerance is set, the two-branch sympy
Piecewise choosing the iterated limit when r_sym < tol and the
differentiated expression otherwise. -/
inductive CExpr
  | plain (e : SymExpr)
  | pw (limitv : LExpr) (rs : SymExpr) (tol : QF) (body : SymExpr)
deriving DecidableEq, Repr

/-- Whether the compiled expression is the piecewise form. -/
def CExpr.isPw : CExpr → Bool
  | .plain _ => false
  | .pw _ _ _ _ => true

/-- Free symbols of a limit value; the limit over x toward c removes x
and can introduce c. This is an approximation of the sympy result, used
only to decide scalarness of compiled output, and every piecewise
expression is non-scalar anyway because its guard mentions the point and
center symbols. -/
def lFree : LExpr → List SymVar
  | .base e => freeSymsList e
  | .lim a x c => (((lFree a).filter (fun v => v != x)) ++ [c]).dedup

/-- Free symbols of a compiled expression. -/
def ceFreeSyms : CExpr → List SymVar
  | .plain e => freeSymsList e
  | .pw l rs _ b => (lFree l ++ freeSymsList rs ++ freeSymsList b).dedup

/-- Numeric value of a limit node; uninterpreted (no claim below
evaluates a compiled function that contains one). -/
def evalL : LExpr → (SymVar → FVal) → FVal
  | .base e, env => evalF e env
  | .lim _ _ _, _ => .nan

/-- Numeric evaluation of a compiled expression. -/
def evalC : CExpr → (SymVar → FVal) → FVal
  | .plain e, env => evalF e env
  | .pw l rs τ b, env =>
      if ltF (evalF rs env) (.fin τ) then evalL l env else evalF b env

/-- The compilation backend stored in the engine (always valid). -/
inductive Package
  | cython
  | numpy
deriving DecidableEq, Repr

/-- The backend argument passed by a caller: one of the two valid names,
or any other string. -/
inductive PkgArg
  | cython
  | numpy
  | other
deriving DecidableEq, Repr

/-- A numpy array argument, by dimensionality; the engine reads shapes of
any input and data only of the validated two-dimensional and
one-dimensional inputs. Arrays of three or more dimensions are
represented by their shape alone (their data is never evaluated). Rows of
a two-dimensional array are assumed rectangular, as numpy guarantees. -/
inductive PyArr
  | zeroD (v : QF)
  | oneD (l : List QF)
  | twoD (m : List (List QF))
  | hiD (shape : List Nat)
deriving DecidableEq, Repr

/-- The numpy shape of the array. -/
def PyArr.shape : PyArr → List Nat
  | .zeroD _ => []
  | .oneD l => [l.length]
  | .twoD m => [m.length, (m.headD []).length]
  | .hiD s => s

/-- ndim of the array. -/
def PyArr.ndim (a : PyArr) : Nat := a.shape.length

/-- shape[i] with a default; used only where validation already bounds i. -/
def PyArr.shapeAtD (a : PyArr) (i : Nat) : Nat := a.shape.getD i 0

/-- Python indexing a.shape[i]: IndexError when i is out of range. -/
def pyShapeAt (a : PyArr) (i : Nat) : Except PyErr Nat :=
  if i < a.shape.length then .ok (a.shape.getD i 0) else .error .indexError

/-- The rows of a validated two-dimensional array. -/
def PyArr.rows : PyArr → List (List QF)
  | .twoD m => m
  | _ => []

/-- The entries of a validated one-dimensional array. -/
def PyArr.row1 : PyArr → List QF
  | .oneD l => l
  | _ => []

/-- A python sequence passed as the derivative specification: a mutable
list or an immutable tuple. Python equality distinguishes the two, and
only tuples are hashable, hence usable as dict keys. -/
inductive PySeq
  | list (l : List ℤ)
  | tuple (l : List ℤ)
deriving DecidableEq, Repr

/-- The elements of the sequence; tuple(d) has exactly these elements. -/
def PySeq.elems : PySeq → List ℤ
  | .list l => l
  | .tuple l => l

/-- Whether the sequence is a tuple. -/
def PySeq.isTuple : PySeq → Bool
  | .list _ => false
  | .tuple _ => true

/-- A compiled numeric function: the backend it was compiled with and the
symbolic expression it computes. The numpy backend wraps the function
with the scalar-expanding check; the wrapper is applied at invocation
according to the stored backend, mirroring that the stored closure keeps
the backend chosen at compile time. -/
abbrev CompiledFn := Package × CExpr

/-- The function cache: a python dict from derivative signature to
compiled function, as an association list with insertion order. -/
abbrev Cache := List (PySeq × CompiledFn)

/-- Dict lookup by key equality. -/
def cacheFind (cch : Cache) (k : PySeq) : Option CompiledFn :=
  (List.find? (fun p => p.1 == k) cch).map (fun p => p.2)

/-- Dict membership. -/
def cacheMem (cch : Cache) (k : PySeq) : Bool :=
  List.any cch (fun p => p.1 == k)

/-- Dict assignment: replace the entry at the key, or append a new one. -/
def cacheInsert (cch : Cache) (k : PySeq) (fn : CompiledFn) : Cache :=
  if cacheMem cch k then
    List.map (fun p => if p.1 == k then (k, fn) else p) cch
  else cch ++ [(k, fn)]

/-- The state of one RBF engine instance: the normalized expression, the
backend, the singularity tolerance, and the function cache. -/
structure RBFState where
  expr : SymExpr
  package : Package
  tol : Option QF
  cache : Cache
deriving DecidableEq, Repr

/-- RBF.set_tol: stores the tolerance; nothing else. -/
def set_tol (s : RBFState) (tol : Option QF) : RBFState := { s with tol := tol }

/-- RBF.set_package: stores a valid backend, rejects anything else. -/
def set_package (s : RBFState) (p : PkgArg) : Except PyErr RBFState :=
  match p with
  | .cython => .ok { s with package := .cython }
  | .numpy => .ok { s with package := .numpy }
  | .other => .error (.valueError .badPackage)

/-- RBF.clear_cache: deletes all cache entries. -/
def clear_cache (s : RBFState) : RBFState := { s with cache := [] }

/-- RBF.add_to_cache: coerces the signature to a tuple, substitutes the
radial distance for R, differentiates axis by axis, optionally builds the
piecewise limit expression when a tolerance is set, compiles with the
current backend and stores the function under the tuple key. -/
def add_to_cache (s : RBFState) (diffArg : PySeq) : Except PyErr RBFState :=
  match pyApplyDiffs (subsVar s.expr .R (rSym diffArg.elems.length)) 0 diffArg.elems with
  | .error e => .error e
  | .ok exprD =>
      .ok { s with
            cache := cacheInsert s.cache (.tuple diffArg.elems)
              (s.package,
                match s.tol with
                | some τ =>
                    CExpr.pw (limitFold exprD diffArg.elems.length)
                      (rSym diffArg.elems.length) τ exprD
                | none => CExpr.plain exprD) }

/-- The normalization of __init__: when EPS is absent, substitute
EPS * R for R. -/
def normExpr (expr : SymExpr) : SymExpr :=
  if hasVar expr .EPS then expr else subsVar expr .R (.mul (.var .EPS) (.var .R))

/-- RBF.__init__: requires the expression to depend on R, folds the shape
parameter in as EPS * R when EPS is absent, validates the backend, stores
the tolerance, and starts with an empty cache. -/
def mkRBF (expr : SymExpr) (package : PkgArg) (tol : Option QF) : Except PyErr RBFState :=
  if ¬ hasVar expr .R then .error (.valueError .exprNotFnOfR)
  else
    match package with
    | .other => .error (.valueError .badPackage)
    | .cython => .ok { expr := normExpr expr, package := .cython, tol := tol, cache := [] }
    | .numpy => .ok { expr := normExpr expr, package := .numpy, tol := tol, cache := [] }

/-- The raw output of a compiled numeric function: a scalar when the
expression mentions none of the array arguments, a one-dimensional array
when it mentions only the shape parameter, a two-dimensional broadcast
array otherwise. -/
inductive RawOut
  | scalarO (v : FVal)
  | vecO (l : List FVal)
  | matO (m : List (List FVal))
deriving DecidableEq, Repr

/-- Elementwise broadcast evaluation over all point/center pairs: entry
(i, j) evaluates at point row i, center row j, shape parameter j. -/
def mkEnv (xr cr : List QF) (ε : QF) : SymVar → FVal
  | .X i => .fin (xr.getD i 0)
  | .C i => .fin (cr.getD i 0)
  | .EPS => .fin ε
  | .R => .nan

/-- The broadcast two-dimensional result of a compiled function. -/
def broadcastEval (e : CExpr) (xm cm : List (List QF)) (el : List QF) : List (List FVal) :=
  List.map (fun xr => List.map (fun p => evalC e (mkEnv xr p.1 p.2)) (List.zip cm el)) xm

/-- The raw output of a numpy-lambdified function: scalar for a closed
expression, a shape-parameter-length vector when only EPS occurs,
otherwise the broadcast array. -/
def lambdifiedRaw (e : CExpr) (xm cm : List (List QF)) (el : List QF) : RawOut :=
  if (ceFreeSyms e).isEmpty then .scalarO (evalC e (fun _ => .nan))
  else if (ceFreeSyms e).all (fun v => v == SymVar.EPS) then
    .vecO (List.map (fun ε => evalC e (fun v => if v = .EPS then .fin ε else .nan)) el)
  else .matO (broadcastEval e xm cm el)

/-- The wrapper _check_lambdified_output: a scalar output is expanded to
a full n by m array; anything else is returned unchanged. -/
def checkLambdifiedOutput (r : RawOut) (n m : Nat) : RawOut :=
  match r with
  | .scalarO v => .matO (List.replicate n (List.replicate m v))
  | r => r

/-- Invoking a cached compiled function on the per-axis broadcast
arguments: the cython ufunc always broadcasts to the full array; the
numpy lambdified function is wrapped with the scalar check, whose n and m
come from the first point-axis argument and the shape-parameter array. -/
def invokeFn (fn : CompiledFn) (xm cm : List (List QF)) (el : List QF) : RawOut :=
  match fn.1 with
  | .cython => .matO (broadcastEval fn.2 xm cm el)
  | .numpy => checkLambdifiedOutput (lambdifiedRaw fn.2 xm cm el) xm.length el.length

/-- Elementwise NaN replacement (_replace_nan): NaN becomes zero, every
other value, infinities included, is kept. -/
def replaceNanV (v : FVal) : FVal := if v = .nan then .fin 0 else v

/-- _replace_nan over a raw output. -/
def replaceNanOut : RawOut → RawOut
  | .scalarO v => .scalarO (replaceNanV v)
  | .vecO l => .vecO (List.map replaceNanV l)
  | .matO m => .matO (List.map (List.map replaceNanV) m)

/-- Defaulting of the shape parameters: omitted means np.ones(c.shape[0]),
which reads c.shape[0] and so raises IndexError on a zero-dimensional c. -/
def defaultEps (c : PyArr) : Option PyArr → Except PyErr PyArr
  | none =>
      match pyShapeAt c 0 with
      | .error e => .error e
      | .ok m => .ok (PyArr.oneD (List.replicate m 1))
  | some a => .ok a

/-- Defaulting of the derivative specification: omitted means a tuple of
zeros of length x.shape[1], which raises IndexError when x has fewer
than two dimensions; a given specification is coerced with tuple(diff). -/
def defaultDiff (x : PyArr) : Option PySeq → Except PyErr (List ℤ)
  | none =>
      match pyShapeAt x 1 with
      | .error e => .error e
      | .ok d => .ok (List.replicate d (0 : ℤ))
  | some ds => .ok ds.elems

/-- The four shape checks of RBF.__call__, in source order, each raising
ValueError. -/
def checkShapes (x c eps : PyArr) (diff : List ℤ) : Except PyErr Unit :=
  if ¬ (x.ndim = 2 ∧ c.ndim = 2) then .error (.valueError .notTwoDim)
  else if ¬ (x.shapeAtD 1 = c.shapeAtD 1) then .error (.valueError .dimMismatch)
  else if ¬ (eps.ndim = 1 ∧ eps.shapeAtD 0 = c.shapeAtD 0) then
    .error (.valueError .epsMismatch)
  else if ¬ (diff.length = x.shapeAtD 1) then .error (.valueError .diffLenMismatch)
  else .ok ()

/-- The argument-defaulting and validation prologue of RBF.__call__,
lines 194 to 224 of basis.py, everything that runs before the cache is
touched. -/
def callPrologue (x c : PyArr) (epsArg : Option PyArr) (diffArg : Option PySeq) :
    Except PyErr (PyArr × List ℤ) :=
  match defaultEps c epsArg with
  | .error e => .error e
  | .ok eps =>
    match defaultDiff x diffArg with
    | .error e => .error e
    | .ok diff =>
      match checkShapes x c eps diff with
      | .error e => .error e
      | .ok _ => .ok (eps, diff)

deriving instance DecidableEq for Except

/-- The observable outcome of one RBF.__call__: the returned array or the
exception, the engine state afterwards, and how many times the symbolic
compiler ran during the call. -/
structure CallResult where
  out : Except PyErr RawOut
  state : RBFState
  compiles : Nat
deriving DecidableEq, Repr

/-- RBF.__call__: the validation prologue, then the cache lookup keyed by
the tuple of the signature, compiling and storing on a miss, then the
numeric invocation with NaN replacement. Warnings are suppressed in the
source; the model raises nothing during numeric evaluation. -/
def rbfCall (s : RBFState) (x c : PyArr) (epsArg : Option PyArr)
    (diffArg : Option PySeq) : CallResult :=
  match callPrologue x c epsArg diffArg with
  | .error e => ⟨.error e, s, 0⟩
  | .ok (eps, diff) =>
    let key := PySeq.tuple diff
    if cacheMem s.cache key then
      match cacheFind s.cache key with
      | some fn => ⟨.ok (replaceNanOut (invokeFn fn x.rows c.rows eps.row1)), s, 0⟩
      | none => ⟨.error .keyError, s, 0⟩
    else
      match add_to_cache s key with
      | .error e => ⟨.error e, s, 0⟩
      | .ok s1 =>
        match cacheFind s1.cache key with
        | some fn => ⟨.ok (replaceNanOut (invokeFn fn x.rows c.rows eps.row1)), s1, 1⟩
        | none => ⟨.error .keyError, s1, 1⟩

/-- The shape invariant of an evaluation request, as the specification
states it: points and centers two-dimensional with equal spatial
dimensionality, shape-parameter count (when given) equal to the center
count, and derivative-signature length (when given) equal to the spatial
dimensionality; omitted shape parameters and signatures default to valid
values. -/
def validShapes (x c : PyArr) (epsArg : Option PyArr) (diffArg : Option PySeq) : Bool :=
  x.ndim = 2 && c.ndim = 2 && x.shapeAtD 1 = c.shapeAtD 1 &&
  (match epsArg with
   | none => true
   | some a => a.ndim = 1 && a.shapeAtD 0 = c.shapeAtD 0) &&
  (match diffArg with
   | none => true
   | some d => d.elems.length = x.shapeAtD 1)

/-- Whether an Except value is a success. -/
def isOkE {α : Type} : Except PyErr α → Bool
  | .ok _ => true
  | .error _ => false

/-- Whether an Except value is a ValueError. -/
def isVE {α : Type} : Except PyErr α → Bool
  | .error (.valueError _) => true
  | _ => false

/-- Not NaN. -/
def noNanV (v : FVal) : Bool := v != .nan

/-- No NaN anywhere in a raw output. -/
def noNanOut : RawOut → Bool
  | .scalarO v => noNanV v
  | .vecO l => l.all noNanV
  | .matO m => m.all (fun row => row.all noNanV)

/-- Every cache key is a tuple. -/
def allTupleKeys (cch : Cache) : Bool := cch.all (fun p => p.1.isTuple)

/-- The engine of the concrete scenario of C8: built from the bare radius
expression R, normalized at construction to EPS * R. -/
def engC8 : RBFState :=
  { expr := .mul (.var .EPS) (.var .R), package := .cython, tol := none, cache := [] }

/-- An engine built from EPS * R with the numpy backend; used as a
concrete instance in witnesses. -/
def engNum : RBFState :=
  { expr := .mul (.var .EPS) (.var .R), package := .numpy, tol := none, cache := [] }

/-- The engine built from R ^ 2, which construction normalizes to
EPS ^ 2 * R ^ 2; the instance of the C9 counterexample. -/
def engSq : RBFState :=
  { expr := .mul (.pow (.var .EPS) 2) (.pow (.var .R) 2),
    package := .cython, tol := none, cache := [] }

/-- The same squared engine with the numpy backend; the C7 witness. -/
def engSqNum : RBFState :=
  { expr := .mul (.pow (.var .EPS) 2) (.pow (.var .R) 2),
    package := .numpy, tol := none, cache := [] }

/-- The engine built from 1 / R, normalized to EPS ^ -1 * R ^ -1; the
instance of the C6 counterexample. -/
def engInv : RBFState :=
  { expr := .mul (.pow (.var .EPS) (-1)) (.pow (.var .R) (-1)),
    package := .cython, tol := none, cache := [] }

/-- The EPS * R engine with a tolerance set; a concrete instance for the
piecewise-compilation claim. -/
def engTol : RBFState :=
  { expr := .mul (.var .EPS) (.var .R), package := .cython, tol := some 1, cache := [] }

/-- The backend stored for a valid backend argument. -/
def pkgOf : PkgArg → Package
  | .cython => .cython
  | .numpy => .numpy
  | .other => .cython

/-- The zero-derivative compiled function of the EPS * R engine in one
dimension: EPS times the radial distance. -/
def cfnC8 : CompiledFn :=
  (.cython, .plain (.mul (.var .EPS)
    (.pow (.pow (.add (.var (.X 0)) (.mul (.num (-1)) (.var (.C 0)))) 2) qhalf)))

/-- The EPS * R engine after caching the zero-derivative function. -/
def engC8C : RBFState := { engC8 with cache := [(.tuple [0], cfnC8)] }

/-- The engine state reached by evaluating the EPS * R engine once, so
that its cache is non-empty; the starting point of the C1 counterexample. -/
def s1C1 : RBFState :=
  (rbfCall engC8 (.twoD [[1]]) (.twoD [[0]]) (some (.oneD [1])) none).state

/-- Concrete two-dimensional arguments for the caching scenario. -/
def ptsC4 : PyArr := .twoD [[0, 0]]

/-- Concrete centers for the caching scenario. -/
def ctrC4 : PyArr := .twoD [[0, 0]]

/-- Concrete shape parameters for the caching scenario. -/
def epsC4 : Option PyArr := some (.oneD [1])

theorem bindE_ok {α β : Type} (a : α) (f : α → Except PyErr β) :
    (Except.ok a >>= f : Except PyErr β) = f a := rfl

theorem bindE_err {α β : Type} (e : PyErr) (f : α → Except PyErr β) :
    ((Except.error e : Except PyErr α) >>= f) = Except.error e := rfl

theorem pyDiffOnce_nonneg (e : SymExpr) (xi : SymVar) (k : ℤ) (hk : 0 ≤ k) :
    pyDiffOnce e xi k = .ok ((fun t => derivE t xi)^[k.toNat] e) := by
  unfold pyDiffOnce
  rcases eq_or_lt_of_le hk with h | h
  · rw [← h]
    simp
  · have h0 : ¬ k = 0 := by omega
    simp [h0, h]

theorem pyApplyDiffs_nonneg (orders : List ℤ) (e : SymExpr) (i : Nat)
    (h : ∀ o ∈ orders, 0 ≤ o) :
    pyApplyDiffs e i orders = .ok (applyDiffsPure e i orders) := by
  induction orders generalizing e i with
  | nil => rfl
  | cons o rest ih =>
      have ho : 0 ≤ o := h o (List.mem_cons_self _ _)
      show (pyDiffOnce e (.X i) o >>= fun t => pyApplyDiffs t (i + 1) rest) = _
      rw [pyDiffOnce_nonneg e (.X i) o ho, bindE_ok]
      exact ih _ _ (fun k hk => h k (List.mem_cons_of_mem _ hk))

theorem pyApplyDiffs_neg (pre : List ℤ) (e : SymExpr) (i : Nat) (o : ℤ) (rest : List ℤ)
    (hpre : ∀ k ∈ pre, 0 ≤ k) (ho : o < 0)
    (hfree : 2 ≤ (freeSymsList (applyDiffsPure e i pre)).length) :
    pyApplyDiffs e i (pre ++ o :: rest) = .error (.valueError .diffAmbiguous) := by
  induction pre generalizing e i with
  | nil =>
      have h1 : ¬ o = 0 := by omega
      have h2 : ¬ 0 < o := by omega
      have hfe : 2 ≤ (freeSymsList e).length := hfree
      show (pyDiffOnce e (.X i) o >>= fun t => pyApplyDiffs t (i + 1) rest) = _
      rcases hl : freeSymsList e with _ | ⟨v, _ | ⟨w, t⟩⟩
      · rw [hl] at hfe; simp at hfe
      · rw [hl] at hfe; simp at hfe
      · simp [pyDiffOnce, h1, h2, pyDiffNoArgs, hl, bindE_err]
  | cons k pre ih =>
      have hk : 0 ≤ k := hpre k (List.mem_cons_self _ _)
      show (pyDiffOnce e (.X i) k >>= fun t => pyApplyDiffs t (i + 1) (pre ++ o :: rest)) = _
      rw [pyDiffOnce_nonneg e (.X i) k hk, bindE_ok]
      exact ih _ _ (fun a ha => hpre a (List.mem_cons_of_mem _ ha)) hfree

theorem noNanV_replaceNanV (v : FVal) : noNanV (replaceNanV v) = true := by
  by_cases h : v = FVal.nan
  · subst h; rfl
  · simp [replaceNanV, noNanV, h]

theorem noNanOut_replaceNanOut (r : RawOut) : noNanOut (replaceNanOut r) = true := by
  cases r with
  | scalarO v => exact noNanV_replaceNanV v
  | vecO l =>
      show (List.map replaceNanV l).all noNanV = true
      rw [List.all_map, List.all_eq_true]
      exact fun x _ => noNanV_replaceNanV x
  | matO m =>
      show (List.map (List.map replaceNanV) m).all (fun row => row.all noNanV) = true
      rw [List.all_map, List.all_eq_true]
      intro row _
      show (List.map replaceNanV row).all noNanV = true
      rw [List.all_map, List.all_eq_true]
      exact fun x _ => noNanV_replaceNanV x

theorem find?_cons_eq {α : Type} (p : α → Bool) (a : α) (l : List α) :
    List.find? p (a :: l) = if p a then some a else List.find? p l := by
  by_cases h : p a = true
  · rw [if_pos h]
    exact List.find?_cons_of_pos l h
  · rw [if_neg h]
    exact List.find?_cons_of_neg l h

theorem find?_map_ne (k k' : PySeq) (fn : CompiledFn) (hne : k ≠ k') (cch : Cache) :
    List.find? (fun p => p.1 == k') (List.map (fun p => if p.1 == k then (k, fn) else p) cch)
      = List.find? (fun p => p.1 == k') cch := by
  induction cch with
  | nil => rfl
  | cons a t ih =>
      rw [List.map_cons, find?_cons_eq, find?_cons_eq]
      by_cases ha : (a.1 == k) = true
      · rw [if_pos ha]
        have ha' : a.1 = k := by simpa using ha
        have hk2 : ¬ ((((k, fn) : PySeq × CompiledFn)).1 == k') = true := by simp [hne]
        have hk3 : ¬ (a.1 == k') = true := by simp [ha', hne]
        rw [if_neg hk2, if_neg hk3]
        exact ih
      · rw [if_neg ha]
        by_cases hb : (a.1 == k') = true
        · rw [if_pos hb, if_pos hb]
        · rw [if_neg hb, if_neg hb]
          exact ih

theorem cacheFind_append_one (cch : Cache) (k k' : PySeq) (fn : CompiledFn) (hne : k ≠ k') :
    cacheFind (cch ++ [(k, fn)]) k' = cacheFind cch k' := by
  induction cch with
  | nil =>
      have hk : (k == k') = false := by simp [hne]
      simp [cacheFind, List.find?, hk]
  | cons a t ih =>
      by_cases ha : a.1 = k'
      · have h1 : (a.1 == k') = true := by simp [ha]
        simp [cacheFind, List.find?_cons, h1]
      · have h1 : (a.1 == k') = false := by simp [ha]
        simp only [List.cons_append, cacheFind, List.find?_cons, h1] at ih ⊢
        exact ih

theorem cacheFind_insert_ne (cch : Cache) (k k' : PySeq) (fn : CompiledFn) (hne : k ≠ k') :
    cacheFind (cacheInsert cch k fn) k' = cacheFind cch k' := by
  unfold cacheInsert
  by_cases hm : cacheMem cch k
  · simp only [hm, if_true, cacheFind, find?_map_ne k k' fn hne cch]
  · simp only [hm, if_false]
    exact cacheFind_append_one cch k k' fn hne

theorem allTupleKeys_insert (cch : Cache) (d : List ℤ) (fn : CompiledFn)
    (h : allTupleKeys cch = true) :
    allTupleKeys (cacheInsert cch (.tuple d) fn) = true := by
  unfold cacheInsert
  by_cases hm : cacheMem cch (.tuple d)
  · rw [if_pos hm]
    unfold allTupleKeys
    rw [List.all_eq_true]
    intro p hp
    rcases List.mem_map.1 hp with ⟨q, hq, rfl⟩
    by_cases h1 : (q.1 == PySeq.tuple d) = true
    · rw [if_pos h1]
      rfl
    · rw [if_neg h1]
      exact (List.all_eq_true.1 h) q hq
  · rw [if_neg hm]
    unfold allTupleKeys at h ⊢
    rw [List.all_append, h]
    rfl

theorem add_to_cache_keys (s : RBFState) (dA : PySeq) (s' : RBFState)
    (h : add_to_cache s dA = .ok s') (hk : allTupleKeys s.cache = true) :
    allTupleKeys s'.cache = true := by
  unfold add_to_cache at h
  cases hpd : pyApplyDiffs (subsVar s.expr .R (rSym dA.elems.length)) 0 dA.elems with
  | error e =>
      rw [hpd] at h
      exact absurd h (by simp)
  | ok eD =>
      rw [hpd] at h
      have h' := Except.ok.inj h
      rw [← h']
      exact allTupleKeys_insert s.cache dA.elems _ hk

theorem rbfCall_keys (s : RBFState) (x c : PyArr) (eA : Option PyArr) (dA : Option PySeq)
    (hk : allTupleKeys s.cache = true) :
    allTupleKeys (rbfCall s x c eA dA).state.cache = true := by
  unfold rbfCall
  cases hcp : callPrologue x c eA dA with
  | error e => simp only [hcp]; exact hk
  | ok pr =>
      simp only [hcp]
      obtain ⟨eps, diff⟩ := pr
      by_cases hm : cacheMem s.cache (.tuple diff) = true
      · rw [if_pos hm]
        cases hcf : cacheFind s.cache (.tuple diff) <;> simp only [hcf] <;> exact hk
      · rw [if_neg hm]
        cases ha : add_to_cache s (.tuple diff) with
        | error e => simp only [ha]; exact hk
        | ok s1 =>
            simp only [ha]
            cases hcf : cacheFind s1.cache (.tuple diff) <;> simp only [hcf] <;>
              exact add_to_cache_keys s _ s1 ha hk

theorem checkShapes_ve_or_ok (x c eps : PyArr) (diff : List ℤ) :
    checkShapes x c eps diff = .ok () ∨ isVE (checkShapes x c eps diff) = true := by
  unfold checkShapes
  by_cases h1 : (x.ndim = 2 ∧ c.ndim = 2)
  · rw [if_neg (not_not_intro h1)]
    by_cases h2 : x.shapeAtD 1 = c.shapeAtD 1
    · rw [if_neg (not_not_intro h2)]
      by_cases h3 : (eps.ndim = 1 ∧ eps.shapeAtD 0 = c.shapeAtD 0)
      · rw [if_neg (not_not_intro h3)]
        by_cases h4 : diff.length = x.shapeAtD 1
        · rw [if_neg (not_not_intro h4)]
          exact Or.inl rfl
        · rw [if_pos h4]
          exact Or.inr rfl
      · rw [if_pos h3]
        exact Or.inr rfl
    · rw [if_pos h2]
      exact Or.inr rfl
  · rw [if_pos h1]
    exact Or.inr rfl

theorem checkShapes_ok (x c eps : PyArr) (diff : List ℤ)
    (h : checkShapes x c eps diff = .ok ()) :
    (x.ndim = 2 ∧ c.ndim = 2) ∧ x.shapeAtD 1 = c.shapeAtD 1 ∧
    (eps.ndim = 1 ∧ eps.shapeAtD 0 = c.shapeAtD 0) ∧ diff.length = x.shapeAtD 1 := by
  unfold checkShapes at h
  by_cases h1 : (x.ndim = 2 ∧ c.ndim = 2)
  · rw [if_neg (not_not_intro h1)] at h
    by_cases h2 : x.shapeAtD 1 = c.shapeAtD 1
    · rw [if_neg (not_not_intro h2)] at h
      by_cases h3 : (eps.ndim = 1 ∧ eps.shapeAtD 0 = c.shapeAtD 0)
      · rw [if_neg (not_not_intro h3)] at h
        by_cases h4 : diff.length = x.shapeAtD 1
        · exact ⟨h1, h2, h3, h4⟩
        · rw [if_pos h4] at h
          exact absurd h (by simp)
      · rw [if_pos h3] at h
        exact absurd h (by simp)
    · rw [if_pos h2] at h
      exact absurd h (by simp)
  · rw [if_pos h1] at h
    exact absurd h (by simp)

theorem defaultEps_ok (c : PyArr) (eA : Option PyArr) (he : eA ≠ none ∨ 1 ≤ c.ndim) :
    ∃ eps, defaultEps c eA = .ok eps := by
  cases eA with
  | some a => exact ⟨a, rfl⟩
  | none =>
      rcases he with he | he
      · exact absurd rfl he
      · refine ⟨.oneD (List.replicate (c.shapeAtD 0) 1), ?_⟩
        unfold defaultEps pyShapeAt
        rw [if_pos (by exact he)]
        rfl

theorem defaultDiff_ok (x : PyArr) (dA : Option PySeq) (hd : dA ≠ none ∨ 2 ≤ x.ndim) :
    ∃ diff, defaultDiff x dA = .ok diff := by
  cases dA with
  | some ds => exact ⟨ds.elems, rfl⟩
  | none =>
      rcases hd with hd | hd
      · exact absurd rfl hd
      · refine ⟨List.replicate (x.shapeAtD 1) 0, ?_⟩
        unfold defaultDiff pyShapeAt
        rw [if_pos (by exact hd)]
        rfl

theorem validShapes_of_ok (x c : PyArr) (eA : Option PyArr) (dA : Option PySeq)
    (eps : PyArr) (diff : List ℤ)
    (he : defaultEps c eA = .ok eps) (hd : defaultDiff x dA = .ok diff)
    (hck : checkShapes x c eps diff = .ok ()) : validShapes x c eA dA = true := by
  obtain ⟨⟨hx2, hc2⟩, hdim, ⟨hen, hes⟩, hdl⟩ := checkShapes_ok x c eps diff hck
  unfold validShapes
  cases eA with
  | some a =>
      have ha : eps = a := by
        have := he
        unfold defaultEps at this
        exact (Except.ok.inj this).symm
      subst ha
      cases dA with
      | some ds =>
          have hds : diff = ds.elems := by
            have := hd
            unfold defaultDiff at this
            exact (Except.ok.inj this).symm
          subst hds
          simp [hx2, hc2, hdim, hen, hes, hdl]
      | none => simp [hx2, hc2, hdim, hen, hes]
  | none =>
      cases dA with
      | some ds =>
          have hds : diff = ds.elems := by
            have := hd
            unfold defaultDiff at this
            exact (Except.ok.inj this).symm
          subst hds
          simp [hx2, hc2, hdim, hdl]
      | none => simp [hx2, hc2, hdim]

theorem callPrologue_invalid (x c : PyArr) (eA : Option PyArr) (dA : Option PySeq)
    (hviol : validShapes x c eA dA = false)
    (hd : dA ≠ none ∨ 2 ≤ x.ndim) (he : eA ≠ none ∨ 1 ≤ c.ndim) :
    isVE (callPrologue x c eA dA) = true := by
  obtain ⟨eps, heps⟩ := defaultEps_ok c eA he
  obtain ⟨diff, hdiff⟩ := defaultDiff_ok x dA hd
  unfold callPrologue
  rw [heps, hdiff]
  rcases checkShapes_ve_or_ok x c eps diff with hok | hve
  · rw [validShapes_of_ok x c eA dA eps diff heps hdiff hok] at hviol
    exact absurd hviol (by simp)
  · cases hcs : checkShapes x c eps diff with
    | ok u => rw [hcs] at hve; exact absurd hve (by simp [isVE])
    | error er =>
        rw [hcs] at hve
        cases er with
        | valueError t =>
            show isVE (match checkShapes x c eps diff with
              | .error e => (.error e : Except PyErr (PyArr × List ℤ))
              | .ok _ => .ok (eps, diff)) = true
            rw [hcs]
            rfl
        | indexError => exact absurd hve (by simp [isVE])
        | keyError => exact absurd hve (by simp [isVE])

/-- C1, counterexample: setting the tolerance does not invalidate the
cache. After one evaluation of the EPS * R engine the cache holds the
zero-derivative function compiled with no tolerance; calling set_tol
with a tolerance leaves the cache unchanged, the next evaluation of the
same signature performs no compilation, and the entry it reuses is still
the plain (non-piecewise) function compiled under the previous policy. -/
theorem claim_C1_counterexample :
    (rbfCall engC8 (.twoD [[1]]) (.twoD [[0]]) (some (.oneD [1])) none).compiles = 1 ∧
    (set_tol s1C1 (some 1)).cache = s1C1.cache ∧
    (rbfCall (set_tol s1C1 (some 1)) (.twoD [[1]]) (.twoD [[0]])
      (some (.oneD [1])) none).compiles = 0 ∧
    (cacheFind (set_tol s1C1 (some 1)).cache (.tuple [0])).map (fun fn => fn.2.isPw)
      = some false := by
  exact ⟨rfl, rfl, rfl, rfl⟩

/-- C1, amended: set_tol and set_package (with a valid argument) store
the new policy but leave the function cache untouched, so previously
compiled functions are reused until clear_cache is called explicitly;
only clear_cache empties the cache. -/
theorem claim_C1_amended (s s' : RBFState) (τ : Option QF) (p : PkgArg)
    (hp : set_package s p = .ok s') :
    (set_tol s τ).cache = s.cache ∧ s'.cache = s.cache ∧ (clear_cache s).cache = [] := by
  cases p with
  | cython =>
      have h := Except.ok.inj hp
      rw [← h]
      exact ⟨rfl, rfl, rfl⟩
  | numpy =>
      have h := Except.ok.inj hp
      rw [← h]
      exact ⟨rfl, rfl, rfl⟩
  | other => exact absurd hp (by simp [set_package])

/-- C1, witness for the amended theorem at a concrete engine and a valid
backend argument. -/
theorem claim_C1_amended_witness :
    (set_tol engC8 (some 1)).cache = engC8.cache ∧
    ({ engC8 with package := Package.numpy } : RBFState).cache = engC8.cache ∧
    (clear_cache engC8).cache = [] :=
  claim_C1_amended engC8 { engC8 with package := Package.numpy } (some 1) .numpy rfl

/-- C2, counterexample: a one-dimensional points array with the
derivative signature omitted violates the shape invariant, but the call
fails with IndexError from reading x.shape[1] while building the default
signature, not with the ValueError of the shape validation. -/
theorem claim_C2_counterexample :
    validShapes (.oneD [0, 1, 2]) (.twoD [[0]]) none none = false ∧
    (rbfCall engC8 (.oneD [0, 1, 2]) (.twoD [[0]]) none none).out = .error .indexError ∧
    isVE (rbfCall engC8 (.oneD [0, 1, 2]) (.twoD [[0]]) none none).out = false := by
  exact ⟨rfl, rfl, rfl⟩

/-- C2, amended: every call whose inputs violate a shape invariant fails
before the cache is touched, with the engine state unchanged and no
compilation performed; the failure is a ValueError except in the
defaulting corner cases (signature omitted with points of fewer than two
dimensions, or shape parameters omitted with zero-dimensional centers),
which the two provisos below exclude and where the defaulting itself
raises IndexError first. -/
theorem claim_C2_amended (s : RBFState) (x c : PyArr) (eA : Option PyArr) (dA : Option PySeq)
    (hviol : validShapes x c eA dA = false)
    (hd : dA ≠ none ∨ 2 ≤ x.ndim) (he : eA ≠ none ∨ 1 ≤ c.ndim) :
    isVE (rbfCall s x c eA dA).out = true ∧ (rbfCall s x c eA dA).state = s ∧
    (rbfCall s x c eA dA).compiles = 0 := by
  have hve := callPrologue_invalid x c eA dA hviol hd he
  unfold rbfCall
  cases hcp : callPrologue x c eA dA with
  | error e =>
      rw [hcp] at hve
      refine ⟨?_, ?_, ?_⟩
      · simp only [hcp]
        cases e with
        | valueError t => rfl
        | indexError => exact absurd hve (by simp [isVE])
        | keyError => exact absurd hve (by simp [isVE])
      · simp [hcp]
      · simp [hcp]
  | ok pr =>
      rw [hcp] at hve
      exact absurd hve (by simp [isVE])

/-- C2, witness for the amended theorem: two-dimensional points and
centers of different spatial dimensionality, with the signature given,
fail with ValueError, leave the state unchanged and compile nothing. -/
theorem claim_C2_amended_witness :
    isVE (rbfCall engC8 (.twoD [[1]]) (.twoD [[1, 2]]) none (some (.tuple [0]))).out = true ∧
    (rbfCall engC8 (.twoD [[1]]) (.twoD [[1, 2]]) none (some (.tuple [0]))).state = engC8 ∧
    (rbfCall engC8 (.twoD [[1]]) (.twoD [[1, 2]]) none (some (.tuple [0]))).compiles = 0 :=
  claim_C2_amended engC8 (.twoD [[1]]) (.twoD [[1, 2]]) none (some (.tuple [0]))
    (by decide) (Or.inl (by simp)) (Or.inr (by decide))

/-- C3: construction fails with ValueError when the expression does not
depend on R; when it depends on R but not on EPS the stored expression is
the input with R substituted by EPS * R; when it depends on both it is
stored unchanged. In all success cases the cache starts empty. -/
theorem claim_C3 (e : SymExpr) (p : PkgArg) (τ : Option QF) (hp : p ≠ .other) :
    (hasVar e .R = false → mkRBF e p τ = .error (.valueError .exprNotFnOfR)) ∧
    (hasVar e .R = true → hasVar e .EPS = false →
      mkRBF e p τ = .ok { expr := subsVar e .R (.mul (.var .EPS) (.var .R)),
                          package := pkgOf p, tol := τ, cache := [] }) ∧
    (hasVar e .R = true → hasVar e .EPS = true →
      mkRBF e p τ = .ok { expr := e, package := pkgOf p, tol := τ, cache := [] }) := by
  refine ⟨?_, ?_, ?_⟩
  · intro h
    unfold mkRBF
    rw [if_pos (by simp [h])]
  · intro h1 h2
    unfold mkRBF
    rw [if_neg (by simp [h1])]
    have hn : normExpr e = subsVar e .R (.mul (.var .EPS) (.var .R)) := by
      unfold normExpr
      rw [if_neg (by simp [h2])]
    cases p with
    | cython => rw [hn]; rfl
    | numpy => rw [hn]; rfl
    | other => exact absurd rfl hp
  · intro h1 h2
    unfold mkRBF
    rw [if_neg (by simp [h1])]
    have hn : normExpr e = e := by
      unfold normExpr
      rw [if_pos (by simp [h2])]
    cases p with
    | cython => rw [hn]; rfl
    | numpy => rw [hn]; rfl
    | other => exact absurd rfl hp

/-- C3, witness: the bare radius expression R depends on R but not on
EPS, and construction stores EPS * R. -/
theorem claim_C3_witness :
    mkRBF (.var .R) .cython none
      = .ok { expr := subsVar (.var .R) .R (.mul (.var .EPS) (.var .R)),
              package := pkgOf .cython, tol := none, cache := [] } :=
  (claim_C3 (.var .R) .cython none (by decide)).2.1 rfl rfl

/-- C4: for any engine with an empty cache, requesting the signatures
(1,0), (0,1) and (1,0) again compiles exactly twice: the first two calls
compile once each and the third compiles nothing and leaves the state of
the second call unchanged, because the key (1,0) already sits in the
cache; moreover inserting one tuple key never disturbs the entry of any
other tuple key, signatures of different lengths included. -/
theorem claim_C4 (s : RBFState) (h : s.cache = [])
    (cch : Cache) (fn : CompiledFn) (d d' : List ℤ) (hne : d ≠ d') :
    ((rbfCall s ptsC4 ctrC4 epsC4 (some (.tuple [1, 0]))).compiles = 1 ∧
     (rbfCall (rbfCall s ptsC4 ctrC4 epsC4 (some (.tuple [1, 0]))).state ptsC4 ctrC4 epsC4
        (some (.tuple [0, 1]))).compiles = 1 ∧
     (rbfCall (rbfCall (rbfCall s ptsC4 ctrC4 epsC4 (some (.tuple [1, 0]))).state ptsC4 ctrC4
        epsC4 (some (.tuple [0, 1]))).state ptsC4 ctrC4 epsC4
        (some (.tuple [1, 0]))).compiles = 0 ∧
     (rbfCall (rbfCall (rbfCall s ptsC4 ctrC4 epsC4 (some (.tuple [1, 0]))).state ptsC4 ctrC4
        epsC4 (some (.tuple [0, 1]))).state ptsC4 ctrC4 epsC4 (some (.tuple [1, 0]))).state
       = (rbfCall (rbfCall s ptsC4 ctrC4 epsC4 (some (.tuple [1, 0]))).state ptsC4 ctrC4 epsC4
        (some (.tuple [0, 1]))).state) ∧
    cacheFind (cacheInsert cch (.tuple d) fn) (.tuple d') = cacheFind cch (.tuple d') := by
  constructor
  · obtain ⟨ex, pk, tl, cch0⟩ := s
    simp only at h
    subst h
    exact ⟨rfl, rfl, rfl, rfl⟩
  · exact cacheFind_insert_ne cch (.tuple d) (.tuple d') fn
      (fun hcon => hne (by injection hcon))

/-- C4, witness at a concrete engine with an empty cache and two concrete
distinct keys of different lengths. -/
theorem claim_C4_witness :
    ((rbfCall engC8 ptsC4 ctrC4 epsC4 (some (.tuple [1, 0]))).compiles = 1 ∧
     (rbfCall (rbfCall engC8 ptsC4 ctrC4 epsC4 (some (.tuple [1, 0]))).state ptsC4 ctrC4 epsC4
        (some (.tuple [0, 1]))).compiles = 1 ∧
     (rbfCall (rbfCall (rbfCall engC8 ptsC4 ctrC4 epsC4 (some (.tuple [1, 0]))).state ptsC4
        ctrC4 epsC4 (some (.tuple [0, 1]))).state ptsC4 ctrC4 epsC4
        (some (.tuple [1, 0]))).compiles = 0 ∧
     (rbfCall (rbfCall (rbfCall engC8 ptsC4 ctrC4 epsC4 (some (.tuple [1, 0]))).state ptsC4
        ctrC4 epsC4 (some (.tuple [0, 1]))).state ptsC4 ctrC4 epsC4
        (some (.tuple [1, 0]))).state
       = (rbfCall (rbfCall engC8 ptsC4 ctrC4 epsC4 (some (.tuple [1, 0]))).state ptsC4 ctrC4
        epsC4 (some (.tuple [0, 1]))).state) ∧
    cacheFind (cacheInsert [] (.tuple [0]) cfnC8) (.tuple [0, 0])
      = cacheFind [] (.tuple [0, 0]) :=
  claim_C4 engC8 rfl [] cfnC8 [0] [0, 0] (by decide)

/-- C5: with a tolerance set, the compiled symbolic object for any
signature with nonnegative orders is the two-branch piecewise expression
whose first branch is the iterated limit of the differentiated
expression, one axis at a time in the same ascending axis order the
differentiation used, guarded by the radial distance being below the
tolerance, and whose second branch is the differentiated expression
itself. -/
theorem claim_C5 (s : RBFState) (τ : QF) (d : List ℤ) (ht : s.tol = some τ)
    (hd : ∀ o ∈ d, 0 ≤ o) :
    add_to_cache s (.tuple d) = .ok { s with
      cache := cacheInsert s.cache (.tuple d)
        (s.package,
          CExpr.pw (limitFold (applyDiffsPure (subsVar s.expr .R (rSym d.length)) 0 d) d.length)
            (rSym d.length) τ
            (applyDiffsPure (subsVar s.expr .R (rSym d.length)) 0 d)) } := by
  unfold add_to_cache
  rw [show (PySeq.tuple d).elems = d from rfl]
  rw [pyApplyDiffs_nonneg d (subsVar s.expr .R (rSym d.length)) 0 hd]
  rw [ht]

/-- C5, witness at the EPS * R engine with tolerance one and the
zero-derivative signature in one dimension. -/
theorem claim_C5_witness :
    add_to_cache engTol (.tuple [0]) = .ok { engTol with
      cache := cacheInsert engTol.cache (.tuple [0])
        (engTol.package,
          CExpr.pw (limitFold (applyDiffsPure (subsVar engTol.expr .R (rSym 1)) 0 [0]) 1)
            (rSym 1) 1 (applyDiffsPure (subsVar engTol.expr .R (rSym 1)) 0 [0])) } :=
  claim_C5 engTol 1 [0] rfl (by decide)

/-- C6, counterexample: NaN replacement does not remove infinities. The
engine built from 1 / R evaluated at a point equal to its center divides
by zero; numpy produces positive infinity there, np.isnan is false on
infinities, and the returned array contains positive infinity rather
than zero, contradicting the claim that the result never contains
NaN/Inf entries. -/
theorem claim_C6_counterexample :
    mkRBF (.pow (.var .R) (-1)) .cython none = .ok engInv ∧
    (rbfCall engInv (.twoD [[0]]) (.twoD [[0]]) (some (.oneD [1])) none).out
      = .ok (.matO [[.pinf]]) ∧
    FVal.pinf ≠ FVal.nan ∧ FVal.pinf ≠ FVal.fin 0 := by
  exact ⟨rfl, rfl, by decide, by decide⟩

/-- C6, amended: every array a successful evaluation returns has had its
NaN entries replaced by zero, so it contains no NaN entry; infinities
are not replaced and can remain in the result, and the model raises
nothing during numeric evaluation. -/
theorem claim_C6_amended (s : RBFState) (x c : PyArr) (eA : Option PyArr) (dA : Option PySeq)
    (o : RawOut) (h : (rbfCall s x c eA dA).out = .ok o) : noNanOut o = true := by
  unfold rbfCall at h
  cases hcp : callPrologue x c eA dA with
  | error e =>
      rw [hcp] at h
      exact absurd h (by simp)
  | ok pr =>
      obtain ⟨eps, diff⟩ := pr
      simp only [hcp] at h
      by_cases hm : cacheMem s.cache (.tuple diff) = true
      · rw [if_pos hm] at h
        cases hcf : cacheFind s.cache (.tuple diff) with
        | some fn =>
            simp only [hcf] at h
            have ho := Except.ok.inj h
            rw [← ho]
            exact noNanOut_replaceNanOut _
        | none =>
            simp only [hcf] at h
            exact absurd h (by simp)
      · rw [if_neg hm] at h
        cases ha : add_to_cache s (.tuple diff) with
        | error e =>
            simp only [ha] at h
            exact absurd h (by simp)
        | ok s1 =>
            simp only [ha] at h
            cases hcf : cacheFind s1.cache (.tuple diff) with
            | some fn =>
                simp only [hcf] at h
                have ho := Except.ok.inj h
                rw [← ho]
                exact noNanOut_replaceNanOut _
            | none =>
                simp only [hcf] at h
                exact absurd h (by simp)

/-- C6, witness for the amended theorem at a concrete successful
evaluation of the EPS * R engine. -/
theorem claim_C6_amended_witness :
    (rbfCall engC8 (.twoD [[3]]) (.twoD [[0]]) none none).out = .ok (.matO [[.fin 3]]) ∧
    noNanOut (.matO [[.fin 3]]) = true :=
  ⟨rfl, claim_C6_amended engC8 (.twoD [[3]]) (.twoD [[0]]) none none (.matO [[.fin 3]]) rfl⟩

/-- C8: the engine built from the bare radius expression R is normalized
at construction to EPS * R, and evaluating it at the one-dimensional
points -1, 0, 1 against the single center 0 with shape parameter 2 and
the default zero-order signature returns exactly the 3 by 1 array with
entries 2, 0, 2. -/
theorem claim_C8 :
    mkRBF (.var .R) .cython none = .ok engC8 ∧
    (rbfCall engC8 (.twoD [[-1], [0], [1]]) (.twoD [[0]]) (some (.oneD [2])) none).out
      = .ok (.matO [[.fin 2], [.fin 0], [.fin 2]]) := by
  exact ⟨rfl, rfl⟩

/-- C9, counterexample: a negative derivative order does not always fail.
For the engine built from R ^ 2 (stored as EPS ^ 2 * R ^ 2) the
signature (2, -1) first differentiates twice along axis zero, collapsing
the expression to 2 EPS ^ 2, whose only free symbol is EPS; the negative
order then makes expr.diff run with no arguments, and sympy silently
differentiates with respect to EPS instead of raising, so compilation
succeeds and evaluation returns the value of 4 EPS. -/
theorem claim_C9_counterexample :
    mkRBF (.pow (.var .R) 2) .cython none = .ok engSq ∧
    isOkE (add_to_cache engSq (.tuple [2, -1])) = true ∧
    (rbfCall engSq (.twoD [[0, 0]]) (.twoD [[0, 0]]) (some (.oneD [1]))
      (some (.tuple [2, -1]))).out = .ok (.matO [[.fin 4]]) := by
  exact ⟨rfl, rfl, rfl⟩

/-- C9, amended: a negative order in the signature makes the
differentiation loop call expr.diff with no variables, and that fails
with a ValueError precisely when the expression differentiated along the
earlier axes still has at least two free symbols at that point; the
compilation is then aborted. (When at most one free symbol remains,
sympy instead silently differentiates the remaining symbol or returns
zero, as the counterexample shows.) -/
theorem claim_C9_amended (s : RBFState) (pre rest : List ℤ) (o : ℤ)
    (hpre : ∀ k ∈ pre, 0 ≤ k) (ho : o < 0)
    (hfree : 2 ≤ (freeSymsList (applyDiffsPure
      (subsVar s.expr .R (rSym (pre ++ o :: rest).length)) 0 pre)).length) :
    add_to_cache s (.tuple (pre ++ o :: rest)) = .error (.valueError .diffAmbiguous) := by
  unfold add_to_cache
  rw [show (PySeq.tuple (pre ++ o :: rest)).elems = pre ++ o :: rest from rfl]
  rw [pyApplyDiffs_neg pre (subsVar s.expr .R (rSym (pre ++ o :: rest).length)) 0 o rest
    hpre ho hfree]

/-- C9, witness for the amended theorem: the EPS * R engine with the
one-dimensional signature (-1); the substituted expression has the three
free symbols EPS, x0 and c0, and compilation fails with the sympy
ValueError. -/
theorem claim_C9_amended_witness :
    add_to_cache engC8 (.tuple [-1]) = .error (.valueError .diffAmbiguous) :=
  claim_C9_amended engC8 [] [] (-1) (by decide) (by decide) (by decide)

/-- C7: with the numpy backend and no tolerance, when the compiled
expression for the requested signature has no free symbols (so the
lambdified function returns a single scalar), a valid evaluation returns
the full N by M array filled with that scalar, N the number of points
and M the number of centers, rather than a scalar or a shape error. -/
theorem claim_C7 (s : RBFState) (xm cm : List (List QF)) (el : List QF) (d : List ℤ)
    (hpkg : s.package = .numpy) (htol : s.tol = none) (hc : s.cache = [])
    (h1 : (xm.headD []).length = (cm.headD []).length)
    (h2 : el.length = cm.length)
    (h3 : d.length = (xm.headD []).length)
    (hd0 : ∀ o ∈ d, 0 ≤ o)
    (hfree : freeSymsList (applyDiffsPure (subsVar s.expr .R (rSym d.length)) 0 d) = []) :
    (rbfCall s (.twoD xm) (.twoD cm) (some (.oneD el)) (some (.tuple d))).out
      = .ok (.matO (List.replicate xm.length (List.replicate cm.length
          (replaceNanV (evalF (applyDiffsPure (subsVar s.expr .R (rSym d.length)) 0 d)
            (fun _ => .nan)))))) := by
  obtain ⟨ex, pk, tl, cch0⟩ := s
  simp only at hpkg htol hc hfree ⊢
  subst hpkg
  subst htol
  subst hc
  have hck : checkShapes (.twoD xm) (.twoD cm) (.oneD el) d = .ok () := by
    unfold checkShapes
    rw [if_neg (not_not_intro
      (⟨rfl, rfl⟩ : (PyArr.twoD xm).ndim = 2 ∧ (PyArr.twoD cm).ndim = 2))]
    rw [if_neg (not_not_intro
      (show PyArr.shapeAtD (.twoD xm) 1 = PyArr.shapeAtD (.twoD cm) 1 from h1))]
    rw [if_neg (not_not_intro
      (⟨rfl, show PyArr.shapeAtD (.oneD el) 0 = PyArr.shapeAtD (.twoD cm) 0 from h2⟩ :
        (PyArr.oneD el).ndim = 1 ∧ _))]
    rw [if_neg (not_not_intro
      (show d.length = PyArr.shapeAtD (.twoD xm) 1 from h3))]
  have hcp : callPrologue (.twoD xm) (.twoD cm) (some (.oneD el)) (some (.tuple d))
      = .ok (.oneD el, d) := by
    show (match checkShapes (.twoD xm) (.twoD cm) (.oneD el) d with
      | .error e => (Except.error e : Except PyErr (PyArr × List ℤ))
      | .ok _ => .ok (.oneD el, d)) = .ok (.oneD el, d)
    rw [hck]
  have hadd : add_to_cache ⟨ex, .numpy, none, []⟩ (.tuple d)
      = .ok ⟨ex, .numpy, none, cacheInsert [] (.tuple d)
          (.numpy, .plain (applyDiffsPure (subsVar ex .R (rSym d.length)) 0 d))⟩ := by
    unfold add_to_cache
    rw [show (PySeq.tuple d).elems = d from rfl]
    rw [pyApplyDiffs_nonneg d (subsVar ex .R (rSym d.length)) 0 hd0]
  have hcf2 : cacheFind (cacheInsert [] (.tuple d)
        (.numpy, .plain (applyDiffsPure (subsVar ex .R (rSym d.length)) 0 d))) (.tuple d)
      = some (.numpy, .plain (applyDiffsPure (subsVar ex .R (rSym d.length)) 0 d)) := by
    show cacheFind [((.tuple d),
      ((.numpy : Package), CExpr.plain (applyDiffsPure (subsVar ex .R (rSym d.length)) 0 d)))]
      (.tuple d) = _
    unfold cacheFind
    rw [find?_cons_eq, if_pos (by simp)]
    rfl
  have hlam : lambdifiedRaw (.plain (applyDiffsPure (subsVar ex .R (rSym d.length)) 0 d))
      xm cm el
      = .scalarO (evalF (applyDiffsPure (subsVar ex .R (rSym d.length)) 0 d)
          (fun _ => .nan)) := by
    unfold lambdifiedRaw
    simp only [ceFreeSyms, hfree]
    rfl
  unfold rbfCall
  simp only [hcp]
  rw [show cacheMem ([] : Cache) (.tuple d) = false from rfl]
  rw [if_neg (by simp)]
  simp only [hadd, hcf2]
  show Except.ok (replaceNanOut (invokeFn
    (.numpy, .plain (applyDiffsPure (subsVar ex .R (rSym d.length)) 0 d)) xm cm el)) = _
  unfold invokeFn
  rw [hlam]
  show Except.ok (replaceNanOut (.matO (List.replicate xm.length (List.replicate el.length
    (evalF (applyDiffsPure (subsVar ex .R (rSym d.length)) 0 d) (fun _ => .nan)))))) = _
  simp only [replaceNanOut, List.map_replicate, h2]

/-- C7, witness: the numpy engine built from R ^ 2, whose third
derivative along the single axis is the closed expression zero, returns
the 2 by 1 array of zeros at two points and one center. -/
theorem claim_C7_witness :
    (rbfCall engSqNum (.twoD [[5], [7]]) (.twoD [[1]]) (some (.oneD [1]))
      (some (.tuple [3]))).out
      = .ok (.matO (List.replicate 2 (List.replicate 1 (FVal.fin 0)))) :=
  claim_C7 engSqNum [[5], [7]] [[1]] [1] [3] rfl rfl rfl rfl rfl rfl (by decide) (by decide)

/-- C10: the derivative specification is coerced to a tuple before any
use, so a call with a mutable list argument is indistinguishable from
the call with the elementwise-equal tuple (same output, same state, same
compilations, same cache entry), and every key ever stored in the cache
is a tuple: add_to_cache and rbfCall both preserve the all-tuple-keys
invariant. -/
theorem claim_C10 (s s' : RBFState) (x c : PyArr) (eA : Option PyArr) (l : List ℤ)
    (dA : PySeq) (hok : add_to_cache s dA = .ok s') (hk : allTupleKeys s.cache = true) :
    rbfCall s x c eA (some (.list l)) = rbfCall s x c eA (some (.tuple l)) ∧
    allTupleKeys s'.cache = true ∧
    allTupleKeys (rbfCall s x c eA (some (.list l))).state.cache = true :=
  ⟨rfl, add_to_cache_keys s dA s' hok hk, rbfCall_keys s x c eA (some (.list l)) hk⟩

/-- C10, witness: the EPS * R engine called with the list signature, and
add_to_cache invoked directly with a list, store and hit only tuple
keys. -/
theorem claim_C10_witness :
    rbfCall engC8 (.twoD [[1]]) (.twoD [[1]]) none (some (.list [0]))
      = rbfCall engC8 (.twoD [[1]]) (.twoD [[1]]) none (some (.tuple [0])) ∧
    allTupleKeys engC8C.cache = true ∧
    allTupleKeys (rbfCall engC8 (.twoD [[1]]) (.twoD [[1]]) none
      (some (.list [0]))).state.cache = true :=
  claim_C10 engC8 engC8C (.twoD [[1]]) (.twoD [[1]]) none [0] (.list [0]) rfl rfl

end RBFM
